import Mathlib

/-!
Formal model of the doorman policy engine (`doorman_ladon.go` and the JWT
middleware): the data model, configuration loading (`LoadPolicies`), policy
evaluation (`IsAllowed`), tag expansion (`ExpandPrincipals`) and the
extraction of principals from verified JWT claims, together with theorems
about their behaviour.

Go maps are embedded as association lists; the order of an association list
standing for a Go map records the order in which a `range` loop happens to
visit the map's entries (Go leaves that order unspecified).  Machine-level
collaborators that are not part of the translated source (file reading, YAML
decoding, the ladon evaluation library, the audit logger) are modelled from
the specification, as flagged on each such definition.
-/

namespace Doorman

/-- A condition context value (spec section 9: string, number, bool or a
list of strings). -/
inductive Value
  | str (s : String)
  | num (n : Int)
  | boolean (b : Bool)
  | strList (l : List String)
deriving DecidableEq

/-- A request context: a mapping from string keys to values, as built in
`IsAllowed` from `request.Context`. -/
abbrev Context := List (String × Value)

/-- A policy effect: `allow` or `deny`. -/
inductive Effect
  | allow
  | deny
deriving DecidableEq

/-- A compiled subject/resource/action pattern (spec section 9): a literal
string, the `*` wildcard, or a regular expression.  Regular-expression
matching is delegated to Go's regexp engine, which is modelled as an
abstract total match function. -/
inductive Pattern
  | literal (s : String)
  | wildcard
  | regex (m : String → Bool)

/-- Whether a pattern matches a request field: literal equality, `*` matches
everything, a regex pattern full-matches through its match function. -/
def Pattern.test : Pattern → String → Bool
  | Pattern.literal s, field => s = field
  | Pattern.wildcard, _ => true
  | Pattern.regex m, field => m field

/-- A ladon `DefaultPolicy` as loaded from a configuration file.  A
condition is modelled by its name together with its evaluation against a
context (spec section 9: condition evaluators expose `Matches(Context) ->
bool`). -/
structure Policy where
  id : String
  description : String
  subjects : List Pattern
  resources : List Pattern
  actions : List Pattern
  effect : Effect
  conditions : List (String × (Context → Bool))

/-- The content of one policies file: audience, tags and policies.  The
`tags` field is the sequence of entries of the Go map `Tags` in the order a
`range` loop yields them; Go does not tie that order to the YAML declaration
order. -/
structure Configuration where
  audience : String
  tags : List (String × List String)
  policies : List Policy

/-- The `LadonDoorman` backend state: the configured sources, the JWT
issuer, and the live audience registry (`configs`, a Go map keyed by
audience). -/
structure LadonDoorman where
  policiesSources : List String
  jwtIssuer : String
  configs : List (String × Configuration)

/-- An authorization request: candidate principals, resource, action and
context. -/
structure Request where
  principals : List String
  resource : String
  action : String
  context : Context

/-- Modelled from the spec: an audit record emitted by the audit logger
(whose implementation is not under `src/`) — the decision, the request
fields and the policies considered at the moment of decision. -/
structure AuditRecord where
  allowed : Bool
  subject : String
  resource : String
  action : String
  policies : List Policy

/-- Lookup in a Go map represented as an association list. -/
def lookupMap {α : Type} : List (String × α) → String → Option α
  | [], _ => none
  | kv :: rest, key => if kv.fst = key then some kv.snd else lookupMap rest key

/-- The relation between a declared sequence of map entries and an
enumeration a Go `for range` loop over the map may produce: `range` visits
the entries of a map in an unspecified order, so any permutation of the
declared entries is a possible enumeration. -/
def isMapEnumeration (enumeration declared : List (String × List String)) : Prop :=
  enumeration.Perm declared

/-- Modelled from the spec: the outcome of reading one configuration source
file, before the validation performed in `loadConfiguration`.  File reading
and YAML/JSON decoding are external collaborators whose code is not under
`src/`; only their observable outcomes matter. -/
inductive SourceFile
  | unreadable
  | emptyFile
  | malformed
  | parsed (config : Configuration)

/-- The validation performed by `loadConfiguration`: an unreadable file, an
empty file, an undecodable file and an empty audience are load errors; an
empty policy list only warns. -/
def loadConfiguration : SourceFile → Except String Configuration
  | SourceFile.unreadable => Except.error "read error"
  | SourceFile.emptyFile => Except.error "empty file"
  | SourceFile.malformed => Except.error "invalid YAML"
  | SourceFile.parsed config =>
      if config.audience = "" then Except.error "empty audience"
      else Except.ok config

/-- Modelled from the spec: the loop inserting every policy of a
configuration into the per-audience store keyed by ID
(`config.ladon.Manager.Create`, from the ladon dependency, not under
`src/`); a duplicate policy ID within the same audience is a fatal load
error. -/
def createPolicies : List Policy → List (String × Policy) → Except String (List (String × Policy))
  | [], store => Except.ok store
  | pol :: rest, store =>
      if (lookupMap store pol.id).isSome then Except.error "policy exists"
      else createPolicies rest (store ++ [(pol.id, pol)])

/-- The loop of `LoadPolicies` over the configured sources: load each file,
insert its policies, reject a duplicated audience, and accumulate the new
registry. -/
def buildConfigs (fs : String → SourceFile) :
    List String → List (String × Configuration) → Except String (List (String × Configuration))
  | [], acc => Except.ok acc
  | filename :: rest, acc =>
      match loadConfiguration (fs filename) with
      | Except.error e => Except.error e
      | Except.ok config =>
          match createPolicies config.policies [] with
          | Except.error e => Except.error e
          | Except.ok _ =>
              if (lookupMap acc config.audience).isSome then
                Except.error "duplicated audience"
              else buildConfigs fs rest (acc ++ [(config.audience, config)])

/-- `LoadPolicies`: build the whole new registry off to the side and only on
full success replace `doorman.configs`; on any error return it and leave the
state untouched.  The result carries the returned error (if any) next to the
doorman state after the call. -/
def loadPolicies (fs : String → SourceFile) (doorman : LadonDoorman) :
    Option String × LadonDoorman :=
  match buildConfigs fs doorman.policiesSources [] with
  | Except.error e => (some e, doorman)
  | Except.ok configs => (none, ⟨doorman.policiesSources, doorman.jwtIssuer, configs⟩)

/-- Whether a policy matches a request: some subject pattern matches the
subject, some resource pattern matches the resource, some action pattern
matches the action, and every condition evaluates to true against the
context. -/
def policyMatches (p : Policy) (subject resource action : String) (ctx : Context) : Bool :=
  p.subjects.any (fun pat => pat.test subject) &&
  p.resources.any (fun pat => pat.test resource) &&
  p.actions.any (fun pat => pat.test action) &&
  p.conditions.all (fun nc => nc.snd ctx)

/-- The policies selected for one subject: those whose patterns and
conditions all match the request. -/
def selectedPolicies (policies : List Policy) (subject resource action : String)
    (ctx : Context) : List Policy :=
  policies.filter (fun p => policyMatches p subject resource action ctx)

/-- Modelled from the spec: the decision of the ladon evaluation engine
(`c.ladon.IsAllowed`, from the ladon dependency, not under `src/`) for one
subject — among the selected policies any deny overrides every allow, at
least one allow without a deny grants access, and no selected policy means
default deny. -/
def evalPrincipal (policies : List Policy) (subject resource action : String)
    (ctx : Context) : Bool :=
  let selected := selectedPolicies policies subject resource action ctx
  if selected.any (fun p => decide (p.effect = Effect.deny)) then false
  else selected.any (fun p => decide (p.effect = Effect.allow))

/-- The selected policies with effect deny — the policies that caused a
denial for one subject. -/
def denyDeciders (policies : List Policy) (subject resource action : String)
    (ctx : Context) : List Policy :=
  (selectedPolicies policies subject resource action ctx).filter
    (fun p => decide (p.effect = Effect.deny))

/-- The per-principal loop of `IsAllowed`: substitute each principal in
order as the sole subject, return allow at the first principal whose
evaluation grants access, and deny after all principals failed.  The audit
emission is modelled from the spec (the audit logger is not under `src/`):
every terminal decision produces exactly one audit record with the decision
and the policy set considered at the moment of decision. -/
def principalLoop (policies : List Policy) (resource action : String) (ctx : Context) :
    List String → String → List Policy → Bool × List AuditRecord
  | [], lastSubject, lastConsidered =>
      (false, [⟨false, lastSubject, resource, action, lastConsidered⟩])
  | principal :: rest, _, _ =>
      if evalPrincipal policies principal resource action ctx then
        (true, [⟨true, principal, resource, action,
                 selectedPolicies policies principal resource action ctx⟩])
      else
        principalLoop policies resource action ctx rest principal
          (denyDeciders policies principal resource action ctx)

/-- `IsAllowed`: look up the audience; if absent, log one denied audit
record with an empty policy set and deny; otherwise run the per-principal
loop.  The boolean decision is returned next to the audit records the call
emits. -/
def isAllowed (doorman : LadonDoorman) (audience : String) (request : Request) :
    Bool × List AuditRecord :=
  match lookupMap doorman.configs audience with
  | none => (false, [⟨false, "", request.resource, request.action, []⟩])
  | some c =>
      principalLoop c.policies request.resource request.action request.context
        request.principals "" []

/-- `ExpandPrincipals`: for each tag of the audience's configuration (in the
order the `range` loop over the `Tags` map yields them), for each member of
the tag, for each input principal, append `tag:<tagname>` to the result when
the principal equals the member; an unknown audience returns the input
unchanged. -/
def expandPrincipals (doorman : LadonDoorman) (audience : String)
    (principals : List String) : List String :=
  let result := principals
  match lookupMap doorman.configs audience with
  | none => result
  | some c =>
      c.tags.foldl
        (fun result tagMembers =>
          tagMembers.snd.foldl
            (fun result member =>
              principals.foldl
                (fun result principal =>
                  if principal = member then result ++ ["tag:" ++ tagMembers.fst]
                  else result)
                result)
            result)
        result

/-- The synthetic principals one member of a tag contributes: one
`tag:<tagname>` per input principal equal to the member, in input order. -/
def memberAppends (principals : List String) (tagName member : String) : List String :=
  principals.filterMap
    (fun principal => if principal = member then some ("tag:" ++ tagName) else none)

/-- The synthetic principals a sequence of tag entries contributes: entries
in sequence order, members of one tag in member order, matches of one member
in input-principal order, without deduplication. -/
def tagAppends (principals : List String) : List (String × List String) → List String
  | [] => []
  | tm :: rest =>
      (tm.snd.map (memberAppends principals tm.fst)).flatten ++ tagAppends principals rest

/-- The JWT claims consumed by the middleware: subject, audience list, email
and groups. -/
structure Claims where
  subject : String
  audience : List String
  email : String
  groups : List String

/-- The outcome of the identity-extraction step of `VerifyJWTMiddleware`
after the token was verified: a 400 for a missing origin, a 403 for an
origin outside the audience claim, or the derived principal list. -/
inductive AuthOutcome
  | badRequest
  | forbidden
  | ok (principals : List String)

/-- The principal list derived from verified claims: `userid:<subject>`,
then `email:<email>` when the email claim is non-empty, then `group:<g>` for
every group in claim order. -/
def extractPrincipals (claims : Claims) : List String :=
  let principals : List String := []
  let principals := principals ++ ["userid:" ++ claims.subject]
  let principals :=
    if claims.email ≠ "" then principals ++ ["email:" ++ claims.email] else principals
  claims.groups.foldl (fun acc g => acc ++ ["group:" ++ g]) principals

/-- The identity-extraction step of `VerifyJWTMiddleware` on verified
claims: reject an absent origin with 400, reject an origin that the
audience claim does not contain with 403, and otherwise derive the
principals. -/
def verifyIdentity (claims : Claims) (origin : String) : AuthOutcome :=
  if origin = "" then AuthOutcome.badRequest
  else if origin ∉ claims.audience then AuthOutcome.forbidden
  else AuthOutcome.ok (extractPrincipals claims)

/-! Concrete sample data used to evaluate the theorems on closed inputs
(the audience, resource and action are those of the scenarios in spec
section 8). -/

/-- The scenario policy of spec section 8: subject `userid:42` may `read`
`doc:1`. -/
def samplePolicy : Policy :=
  ⟨"policy-1", "", [Pattern.literal "userid:42"], [Pattern.literal "doc:1"],
   [Pattern.literal "read"], Effect.allow, []⟩

/-- A policy allowing every subject, resource and action. -/
def allowAllPolicy : Policy :=
  ⟨"p-allow", "", [Pattern.wildcard], [Pattern.wildcard], [Pattern.wildcard],
   Effect.allow, []⟩

/-- A policy denying subject `userid:42` on every resource and action. -/
def denyPolicy : Policy :=
  ⟨"p-deny", "", [Pattern.literal "userid:42"], [Pattern.wildcard], [Pattern.wildcard],
   Effect.deny, []⟩

/-- An audience configured with the scenario policy only. -/
def sampleConfig : Configuration := ⟨"svc1", [], [samplePolicy]⟩

/-- A doorman whose registry holds `sampleConfig` under audience `svc1`. -/
def sampleDoorman : LadonDoorman := ⟨[], "", [("svc1", sampleConfig)]⟩

/-- An audience configured with a matching allow and a matching deny. -/
def denyConfig : Configuration := ⟨"svc1", [], [allowAllPolicy, denyPolicy]⟩

/-- A doorman whose registry holds `denyConfig` under audience `svc1`. -/
def denyDoorman : LadonDoorman := ⟨[], "", [("svc1", denyConfig)]⟩

/-- An audience whose `Tags` map holds two tags, each with member `p`, in
the enumeration order `b` then `a`. -/
def tagsConfig : Configuration := ⟨"svc1", [("b", ["p"]), ("a", ["p"])], []⟩

/-- A doorman whose registry holds `tagsConfig` under audience `svc1`. -/
def tagsDoorman : LadonDoorman := ⟨[], "", [("svc1", tagsConfig)]⟩

/-- A doorman with one configured source and a previously loaded registry. -/
def sampleLoaded : LadonDoorman := ⟨["f1"], "", [("old", ⟨"old", [], []⟩)]⟩

/-! Helper lemmas. -/

theorem lookupMap_isSome_iff {α : Type} (key : String) :
    ∀ l : List (String × α), (lookupMap l key).isSome = true ↔ key ∈ l.map Prod.fst := by
  intro l
  induction l with
  | nil => simp [lookupMap]
  | cons kv rest ih =>
      by_cases h : kv.fst = key
      · simp [lookupMap, h]
      · simp only [lookupMap, if_neg h, List.map_cons, List.mem_cons, ih]
        constructor
        · intro hm
          exact Or.inr hm
        · intro hm
          cases hm with
          | inl heq => exact absurd heq.symm h
          | inr hmem => exact hmem

theorem foldl_append_map (f : String → String) :
    ∀ (l init : List String),
      l.foldl (fun acc g => acc ++ [f g]) init = init ++ l.map f := by
  intro l
  induction l with
  | nil => intro init; simp
  | cons x xs ih => intro init; simp [ih, List.append_assoc]

theorem extractPrincipals_eq (claims : Claims) :
    extractPrincipals claims =
      ["userid:" ++ claims.subject]
        ++ (if claims.email = "" then [] else ["email:" ++ claims.email])
        ++ claims.groups.map (fun g => "group:" ++ g) := by
  unfold extractPrincipals
  rw [foldl_append_map]
  by_cases h : claims.email = "" <;> simp [h]

theorem evalPrincipal_of_deny (policies : List Policy) (subject resource action : String)
    (ctx : Context)
    (h : ∃ p ∈ policies, policyMatches p subject resource action ctx = true
          ∧ p.effect = Effect.deny) :
    evalPrincipal policies subject resource action ctx = false := by
  obtain ⟨p, hp, hm, hd⟩ := h
  have hsel : p ∈ selectedPolicies policies subject resource action ctx :=
    List.mem_filter.mpr ⟨hp, hm⟩
  have hany : (selectedPolicies policies subject resource action ctx).any
      (fun p => decide (p.effect = Effect.deny)) = true :=
    List.any_eq_true.mpr ⟨p, hsel, by simp [hd]⟩
  simp [evalPrincipal, hany]

theorem evalPrincipal_of_no_match (policies : List Policy) (subject resource action : String)
    (ctx : Context)
    (h : ∀ p ∈ policies, policyMatches p subject resource action ctx = false) :
    evalPrincipal policies subject resource action ctx = false := by
  have hsel : selectedPolicies policies subject resource action ctx = [] := by
    refine List.filter_eq_nil_iff.mpr ?_
    intro p hp
    simp [h p hp]
  simp [evalPrincipal, hsel]

theorem principalLoop_false (policies : List Policy) (resource action : String)
    (ctx : Context) :
    ∀ (ps : List String) (lastSubject : String) (lastConsidered : List Policy),
      (∀ q ∈ ps, evalPrincipal policies q resource action ctx = false) →
      (principalLoop policies resource action ctx ps lastSubject lastConsidered).fst
        = false := by
  intro ps
  induction ps with
  | nil => intro lastSubject lastConsidered _; rfl
  | cons x xs ih =>
      intro lastSubject lastConsidered h
      have hx : evalPrincipal policies x resource action ctx = false :=
        h x (List.mem_cons_self x xs)
      simp only [principalLoop, hx, Bool.false_eq_true, if_false]
      exact ih x _ (fun q hq => h q (List.mem_cons_of_mem _ hq))

theorem principalLoop_true_iff (policies : List Policy) (resource action : String)
    (ctx : Context) :
    ∀ (ps : List String) (lastSubject : String) (lastConsidered : List Policy),
      (principalLoop policies resource action ctx ps lastSubject lastConsidered).fst = true
        ↔ ∃ q ∈ ps, evalPrincipal policies q resource action ctx = true := by
  intro ps
  induction ps with
  | nil => intro lastSubject lastConsidered; simp [principalLoop]
  | cons x xs ih =>
      intro lastSubject lastConsidered
      cases hx : evalPrincipal policies x resource action ctx with
      | true =>
          simp only [principalLoop, hx, if_true]
          constructor
          · intro _; exact ⟨x, List.mem_cons_self x xs, hx⟩
          · intro _; trivial
      | false =>
          simp only [principalLoop, hx, Bool.false_eq_true, if_false]
          rw [ih x (denyDeciders policies x resource action ctx)]
          constructor
          · rintro ⟨q, hq, hqt⟩
            exact ⟨q, List.mem_cons_of_mem x hq, hqt⟩
          · rintro ⟨q, hq, hqt⟩
            cases List.mem_cons.mp hq with
            | inl heq =>
                subst heq
                rw [hx] at hqt
                exact absurd hqt (by simp)
            | inr hmem => exact ⟨q, hmem, hqt⟩

theorem principalLoop_single (policies : List Policy) (resource action : String)
    (ctx : Context) :
    ∀ (ps : List String) (lastSubject : String) (lastConsidered : List Policy),
      ∃ rec,
        (principalLoop policies resource action ctx ps lastSubject lastConsidered).snd
            = [rec]
          ∧ rec.allowed
              = (principalLoop policies resource action ctx ps lastSubject
                  lastConsidered).fst := by
  intro ps
  induction ps with
  | nil => intro lastSubject lastConsidered; exact ⟨_, rfl, rfl⟩
  | cons x xs ih =>
      intro lastSubject lastConsidered
      cases hx : evalPrincipal policies x resource action ctx with
      | true =>
          simp only [principalLoop, hx, if_true]
          exact ⟨_, rfl, rfl⟩
      | false =>
          simp only [principalLoop, hx, Bool.false_eq_true, if_false]
          exact ih x (denyDeciders policies x resource action ctx)

theorem principalLoop_first (policies : List Policy) (resource action : String)
    (ctx : Context) :
    ∀ (ps₁ : List String) (p : String) (ps₂ : List String) (lastSubject : String)
      (lastConsidered : List Policy),
      (∀ q ∈ ps₁, evalPrincipal policies q resource action ctx = false) →
      evalPrincipal policies p resource action ctx = true →
      principalLoop policies resource action ctx (ps₁ ++ p :: ps₂) lastSubject
          lastConsidered
        = (true, [⟨true, p, resource, action,
                   selectedPolicies policies p resource action ctx⟩]) := by
  intro ps₁
  induction ps₁ with
  | nil =>
      intro p ps₂ lastSubject lastConsidered _ hp
      simp only [List.nil_append, principalLoop, hp, if_true]
  | cons x xs ih =>
      intro p ps₂ lastSubject lastConsidered h hp
      have hx : evalPrincipal policies x resource action ctx = false :=
        h x (List.mem_cons_self x xs)
      simp only [List.cons_append, principalLoop, hx, Bool.false_eq_true, if_false]
      exact ih p ps₂ x _ (fun q hq => h q (List.mem_cons_of_mem _ hq)) hp

theorem buildConfigs_ok_spec (fs : String → SourceFile) :
    ∀ (sources : List String) (acc res : List (String × Configuration)),
      buildConfigs fs sources acc = Except.ok res →
      (∀ f ∈ sources, ∃ cfg, loadConfiguration (fs f) = Except.ok cfg
          ∧ ∃ st, createPolicies cfg.policies [] = Except.ok st)
        ∧ ((acc.map Prod.fst).Nodup → (res.map Prod.fst).Nodup) := by
  intro sources
  induction sources with
  | nil =>
      intro acc res h
      refine ⟨by simp, ?_⟩
      have : acc = res := by
        simpa [buildConfigs] using h
      intro hn
      exact this ▸ hn
  | cons x xs ih =>
      intro acc res h
      cases hload : loadConfiguration (fs x) with
      | error e => simp [buildConfigs, hload] at h
      | ok cfg =>
          simp only [buildConfigs, hload] at h
          cases hcreate : createPolicies cfg.policies [] with
          | error e => simp [hcreate] at h
          | ok st =>
              simp only [hcreate] at h
              cases hdup : (lookupMap acc cfg.audience).isSome with
              | true => simp [hdup] at h
              | false =>
                  simp only [hdup, Bool.false_eq_true, if_false] at h
                  have hrec := ih (acc ++ [(cfg.audience, cfg)]) res h
                  refine ⟨?_, ?_⟩
                  · intro f hf
                    cases List.mem_cons.mp hf with
                    | inl heq => exact heq ▸ ⟨cfg, hload, st, hcreate⟩
                    | inr hmem => exact hrec.1 f hmem
                  · intro hacc
                    refine hrec.2 ?_
                    have hnot : cfg.audience ∉ acc.map Prod.fst := by
                      intro hmem
                      have := (lookupMap_isSome_iff cfg.audience acc).mpr hmem
                      rw [hdup] at this
                      exact absurd this (by simp)
                    rw [List.map_append, List.nodup_append_comm]
                    simp only [List.map_cons, List.map_nil, List.singleton_append]
                    exact List.nodup_cons.mpr ⟨hnot, hacc⟩

theorem foldl_matchAppend (member tagName : String) :
    ∀ (ps acc : List String),
      ps.foldl
          (fun result principal =>
            if principal = member then result ++ ["tag:" ++ tagName] else result)
          acc
        = acc ++ memberAppends ps tagName member := by
  intro ps
  induction ps with
  | nil => intro acc; simp [memberAppends]
  | cons x xs ih =>
      intro acc
      by_cases h : x = member
      · simp [memberAppends, List.filterMap_cons, h, ih, List.append_assoc]
      · simp [memberAppends, List.filterMap_cons, h, ih]

theorem foldl_members (principals : List String) (tagName : String) :
    ∀ (members : List String) (acc : List String),
      members.foldl
          (fun result member =>
            principals.foldl
              (fun result principal =>
                if principal = member then result ++ ["tag:" ++ tagName] else result)
              result)
          acc
        = acc ++ (members.map (memberAppends principals tagName)).flatten := by
  intro members
  induction members with
  | nil => intro acc; simp
  | cons m ms ih =>
      intro acc
      rw [List.foldl_cons, ih, foldl_matchAppend]
      simp [List.append_assoc]

theorem foldl_tags (principals : List String) :
    ∀ (tags : List (String × List String)) (acc : List String),
      tags.foldl
          (fun result tagMembers =>
            tagMembers.snd.foldl
              (fun result member =>
                principals.foldl
                  (fun result principal =>
                    if principal = member then result ++ ["tag:" ++ tagMembers.fst]
                    else result)
                  result)
              result)
          acc
        = acc ++ tagAppends principals tags := by
  intro tags
  induction tags with
  | nil => intro acc; simp [tagAppends]
  | cons tm rest ih =>
      intro acc
      rw [List.foldl_cons, ih, foldl_members]
      simp [tagAppends, List.append_assoc]

/-! Claim theorems. -/

/-- Claim C1: whenever any configuration source fails to load (unreadable
file, empty file, empty audience, duplicate audience, duplicate policy ID),
`LoadPolicies` returns an error and leaves the previous registry unchanged;
the new map is published only when every source loaded successfully, as a
single replacement, and then carries no duplicate audience. -/
theorem loadPolicies_atomic (fs : String → SourceFile) (doorman : LadonDoorman) :
    ((loadPolicies fs doorman).fst.isSome = true →
      (loadPolicies fs doorman).snd.configs = doorman.configs)
  ∧ ((loadPolicies fs doorman).fst = none →
      buildConfigs fs doorman.policiesSources []
          = Except.ok (loadPolicies fs doorman).snd.configs
        ∧ ((loadPolicies fs doorman).snd.configs.map Prod.fst).Nodup
        ∧ ∀ f ∈ doorman.policiesSources, ∃ cfg,
            loadConfiguration (fs f) = Except.ok cfg
              ∧ ∃ st, createPolicies cfg.policies [] = Except.ok st)
  ∧ (∀ f ∈ doorman.policiesSources, ∀ e,
      loadConfiguration (fs f) = Except.error e →
      (loadPolicies fs doorman).fst.isSome = true) := by
  cases hb : buildConfigs fs doorman.policiesSources [] with
  | error e =>
      refine ⟨?_, ?_, ?_⟩
      · intro _
        simp [loadPolicies, hb]
      · intro hnone
        simp [loadPolicies, hb] at hnone
      · intro f hf e2 he
        simp [loadPolicies, hb]
  | ok cfgs =>
      have hspec := buildConfigs_ok_spec fs doorman.policiesSources [] cfgs hb
      refine ⟨?_, ?_, ?_⟩
      · intro hsome
        simp [loadPolicies, hb] at hsome
      · intro _
        refine ⟨?_, ?_, hspec.1⟩
        · simp [loadPolicies, hb]
        · have hnd := hspec.2 (by simp)
          simpa [loadPolicies, hb] using hnd
      · intro f hf e he
        obtain ⟨cfg, hcfg, _⟩ := hspec.1 f hf
        rw [he] at hcfg
        exact absurd hcfg (by simp)

/-- Witness for C1: an unreadable source aborts the reload and leaves the
prior registry intact, while a fully successful reload publishes a
duplicate-free registry. -/
theorem loadPolicies_atomic_witness :
    (loadPolicies (fun _ => SourceFile.unreadable) sampleLoaded).snd.configs
        = sampleLoaded.configs
  ∧ (loadPolicies (fun _ => SourceFile.unreadable) sampleLoaded).fst.isSome = true
  ∧ ((loadPolicies (fun _ => SourceFile.parsed ⟨"new", [], []⟩)
        sampleLoaded).snd.configs.map Prod.fst).Nodup := by
  have h := loadPolicies_atomic (fun _ => SourceFile.unreadable) sampleLoaded
  have hsome : (loadPolicies (fun _ => SourceFile.unreadable) sampleLoaded).fst.isSome
      = true :=
    h.2.2 "f1" (by simp [sampleLoaded]) "read error" rfl
  have hgood := (loadPolicies_atomic (fun _ => SourceFile.parsed ⟨"new", [], []⟩)
      sampleLoaded).2.1 rfl
  exact ⟨h.1 hsome, hsome, hgood.2.1⟩

/-- Claim C2: when some policy with effect deny matches a principal of the
request, the evaluation for that principal is deny even if an allow policy
also matches, and when this holds of every principal the whole `IsAllowed`
call returns false. -/
theorem deny_overrides (doorman : LadonDoorman) (audience : String) (request : Request)
    (c : Configuration) (principal : String)
    (hc : lookupMap doorman.configs audience = some c)
    (hdeny : ∃ p ∈ c.policies,
        policyMatches p principal request.resource request.action request.context = true
          ∧ p.effect = Effect.deny) :
    evalPrincipal c.policies principal request.resource request.action request.context
        = false
  ∧ ((∀ q ∈ request.principals, ∃ p ∈ c.policies,
        policyMatches p q request.resource request.action request.context = true
          ∧ p.effect = Effect.deny) →
      (isAllowed doorman audience request).fst = false) := by
  constructor
  · exact evalPrincipal_of_deny _ _ _ _ _ hdeny
  · intro hall
    simp only [isAllowed, hc]
    exact principalLoop_false c.policies request.resource request.action request.context
      request.principals "" [] (fun q hq =>
        evalPrincipal_of_deny _ _ _ _ _ (hall q hq))

/-- Witness for C2: with a matching allow-all policy and a matching deny
policy, subject `userid:42` is denied. -/
theorem deny_overrides_witness :
    evalPrincipal denyConfig.policies "userid:42" "doc:1" "read" [] = false
  ∧ (isAllowed denyDoorman "svc1" ⟨["userid:42"], "doc:1", "read", []⟩).fst = false := by
  have hdeny : ∃ p ∈ denyConfig.policies,
      policyMatches p "userid:42" "doc:1" "read" [] = true
        ∧ p.effect = Effect.deny := by
    refine ⟨denyPolicy, ?_, by decide, rfl⟩
    exact List.mem_cons_of_mem _ (List.mem_cons_self _ _)
  have h := deny_overrides denyDoorman "svc1" ⟨["userid:42"], "doc:1", "read", []⟩
    denyConfig "userid:42" rfl hdeny
  refine ⟨h.1, h.2 ?_⟩
  intro q hq
  simp at hq
  subst hq
  exact hdeny

/-- Claim C3: evaluation has no error path (the embedded `isAllowed` is a
total function into `Bool`, as the Go function returns a bare `bool`), and
when no policy matches any principal of the request — including the case of
an unknown audience — `IsAllowed` returns false. -/
theorem default_deny (doorman : LadonDoorman) (audience : String) (request : Request) :
    (lookupMap doorman.configs audience = none →
      (isAllowed doorman audience request).fst = false)
  ∧ (∀ c, lookupMap doorman.configs audience = some c →
      (∀ q ∈ request.principals, ∀ p ∈ c.policies,
          policyMatches p q request.resource request.action request.context = false) →
      (isAllowed doorman audience request).fst = false) := by
  constructor
  · intro h
    simp [isAllowed, h]
  · intro c hc hnone
    simp only [isAllowed, hc]
    exact principalLoop_false c.policies request.resource request.action request.context
      request.principals "" [] (fun q hq =>
        evalPrincipal_of_no_match c.policies q request.resource request.action
          request.context (fun p hp => hnone q hq p hp))

/-- Witness for C3: an unknown audience and a request whose subject matches
no policy both resolve to deny. -/
theorem default_deny_witness :
    (isAllowed sampleDoorman "zzz" ⟨["userid:42"], "doc:1", "read", []⟩).fst = false
  ∧ (isAllowed sampleDoorman "svc1" ⟨["userid:99"], "doc:1", "read", []⟩).fst
      = false := by
  constructor
  · exact (default_deny sampleDoorman "zzz" ⟨["userid:42"], "doc:1", "read", []⟩).1 rfl
  · refine (default_deny sampleDoorman "svc1"
      ⟨["userid:99"], "doc:1", "read", []⟩).2 sampleConfig rfl ?_
    intro q hq p hp
    simp at hq
    simp [sampleConfig] at hp
    subst hq
    subst hp
    decide

/-- Claim C4: a request to an audience absent from the registry is denied
and records exactly one denied audit entry whose matched-policy set is
empty. -/
theorem unknown_audience_denied (doorman : LadonDoorman) (audience : String)
    (request : Request)
    (h : lookupMap doorman.configs audience = none) :
    isAllowed doorman audience request
      = (false, [⟨false, "", request.resource, request.action, []⟩]) := by
  simp [isAllowed, h]

/-- Witness for C4: a request to an empty registry yields deny with one
empty-policy audit record. -/
theorem unknown_audience_denied_witness :
    isAllowed ⟨[], "", []⟩ "svc1" ⟨["userid:42"], "doc:1", "read", []⟩
      = (false, [⟨false, "", "doc:1", "read", []⟩]) :=
  unknown_audience_denied ⟨[], "", []⟩ "svc1" ⟨["userid:42"], "doc:1", "read", []⟩ rfl

/-- Claim C5: principals are tried one at a time in the order supplied, each
substituted as the sole subject; `IsAllowed` returns true exactly when some
principal's evaluation allows, and at the first such principal it
short-circuits, the audit record carrying that principal as subject. -/
theorem principals_in_order (doorman : LadonDoorman) (audience : String)
    (request : Request) (c : Configuration)
    (hc : lookupMap doorman.configs audience = some c) :
    ((isAllowed doorman audience request).fst = true ↔
      ∃ q ∈ request.principals,
        evalPrincipal c.policies q request.resource request.action request.context
          = true)
  ∧ (∀ (ps₁ : List String) (p : String) (ps₂ : List String),
      request.principals = ps₁ ++ p :: ps₂ →
      (∀ q ∈ ps₁,
        evalPrincipal c.policies q request.resource request.action request.context
          = false) →
      evalPrincipal c.policies p request.resource request.action request.context
          = true →
      isAllowed doorman audience request
        = (true, [⟨true, p, request.resource, request.action,
                   selectedPolicies c.policies p request.resource request.action
                     request.context⟩])) := by
  constructor
  · simp only [isAllowed, hc]
    exact principalLoop_true_iff c.policies request.resource request.action
      request.context request.principals "" []
  · intro ps₁ p ps₂ hps h1 hp
    simp only [isAllowed, hc, hps]
    exact principalLoop_first c.policies request.resource request.action
      request.context ps₁ p ps₂ "" [] h1 hp

/-- Witness for C5: with principals `userid:99` then `userid:42`, the first
fails, the second allows, and the call short-circuits into an allow whose
audit record carries `userid:42`. -/
theorem principals_in_order_witness :
    isAllowed sampleDoorman "svc1" ⟨["userid:99", "userid:42"], "doc:1", "read", []⟩
      = (true, [⟨true, "userid:42", "doc:1", "read", [samplePolicy]⟩]) := by
  have h1 : ∀ q ∈ (["userid:99"] : List String),
      evalPrincipal sampleConfig.policies q "doc:1" "read" [] = false := by
    intro q hq
    simp at hq
    subst hq
    decide
  have h2 : evalPrincipal sampleConfig.policies "userid:42" "doc:1" "read" []
      = true := by
    decide
  have h := (principals_in_order sampleDoorman "svc1"
      ⟨["userid:99", "userid:42"], "doc:1", "read", []⟩ sampleConfig rfl).2
    ["userid:99"] "userid:42" [] rfl h1 h2
  exact h.trans (by rfl)

/-- Claim C6: every call to `IsAllowed` — audience miss, short-circuit
allow, or final deny — emits exactly one audit record, and that record
carries the decision the call returns. -/
theorem isAllowed_single_audit (doorman : LadonDoorman) (audience : String)
    (request : Request) :
    ∃ rec, (isAllowed doorman audience request).snd = [rec]
      ∧ rec.allowed = (isAllowed doorman audience request).fst := by
  unfold isAllowed
  cases lookupMap doorman.configs audience with
  | none => exact ⟨_, rfl, rfl⟩
  | some c =>
      exact principalLoop_single c.policies request.resource request.action
        request.context request.principals "" []

/-- Counterexample for C7: the code iterates the audience's `Tags` with a Go
`range` over a map, whose order is unspecified; under the enumeration that
visits tag `b` before tag `a` (a permutation of the declared entries, hence
a possible map enumeration), the appended tag principals come out as
`tag:b` then `tag:a`, not in the declaration order `a` then `b` the claim
requires. -/
theorem expandPrincipals_declaration_order_cex :
    isMapEnumeration [("b", ["p"]), ("a", ["p"])] [("a", ["p"]), ("b", ["p"])]
  ∧ expandPrincipals tagsDoorman "svc1" ["p"] = ["p", "tag:b", "tag:a"]
  ∧ ["p", "tag:b", "tag:a"] ≠ ["p", "tag:a", "tag:b"] := by
  refine ⟨List.Perm.swap _ _ _, by decide, by decide⟩

/-- Claim C7 (amended): `ExpandPrincipals` returns the original principals
first and only appends: one `tag:<tagname>` per (tag member, input
principal) equality match, in the map's enumeration order over tags (which
Go does not tie to declaration order) then member order then input order,
without deduplication; an unknown audience returns the input unchanged. -/
theorem expandPrincipals_appends (doorman : LadonDoorman) (audience : String)
    (principals : List String) :
    (lookupMap doorman.configs audience = none →
      expandPrincipals doorman audience principals = principals)
  ∧ (∀ c, lookupMap doorman.configs audience = some c →
      expandPrincipals doorman audience principals
        = principals ++ tagAppends principals c.tags) := by
  constructor
  · intro h
    simp [expandPrincipals, h]
  · intro c hc
    simp only [expandPrincipals, hc]
    exact foldl_tags principals c.tags principals

/-- Witness for C7: an unknown audience echoes the input, and a tag `T`
containing the input principal `p1` appends exactly `tag:T`. -/
theorem expandPrincipals_appends_witness :
    expandPrincipals ⟨[], "", []⟩ "svc1" ["p1"] = ["p1"]
  ∧ expandPrincipals ⟨[], "", [("svc1", ⟨"svc1", [("T", ["p1"])], []⟩)]⟩ "svc1" ["p1"]
      = ["p1"] ++ tagAppends ["p1"]
          (⟨"svc1", [("T", ["p1"])], []⟩ : Configuration).tags
  ∧ tagAppends ["p1"] [("T", ["p1"])] = ["tag:T"] := by
  refine ⟨?_, ?_, by decide⟩
  · exact (expandPrincipals_appends ⟨[], "", []⟩ "svc1" ["p1"]).1 rfl
  · exact (expandPrincipals_appends ⟨[], "", [("svc1", ⟨"svc1", [("T", ["p1"])], []⟩)]⟩
      "svc1" ["p1"]).2 ⟨"svc1", [("T", ["p1"])], []⟩ rfl

/-- Claim C8: identity extraction on verified claims fails with BadRequest
when the declared origin is absent, fails with Forbidden when the origin is
not in the claims' audience list, and only a success carries a principal
set. -/
theorem verifyIdentity_boundary (claims : Claims) (origin : String) :
    verifyIdentity claims "" = AuthOutcome.badRequest
  ∧ (origin ≠ "" → origin ∉ claims.audience →
      verifyIdentity claims origin = AuthOutcome.forbidden)
  ∧ (∀ ps, verifyIdentity claims origin = AuthOutcome.ok ps →
      origin ≠ "" ∧ origin ∈ claims.audience) := by
  refine ⟨rfl, ?_, ?_⟩
  · intro h1 h2
    simp [verifyIdentity, h1, h2]
  · intro ps h
    by_cases h1 : origin = ""
    · simp [verifyIdentity, h1] at h
    · by_cases h2 : origin ∈ claims.audience
      · exact ⟨h1, h2⟩
      · simp [verifyIdentity, h1, h2] at h

/-- Witness for C8: an empty origin yields BadRequest and an origin outside
the audience claim yields Forbidden. -/
theorem verifyIdentity_boundary_witness :
    verifyIdentity ⟨"42", ["https://svc1/"], "", []⟩ "" = AuthOutcome.badRequest
  ∧ verifyIdentity ⟨"42", ["https://svc1/"], "", []⟩ "https://other/"
      = AuthOutcome.forbidden := by
  have h := verifyIdentity_boundary ⟨"42", ["https://svc1/"], "", []⟩ "https://other/"
  exact ⟨h.1, h.2.1 (by decide) (by decide)⟩

/-- Claim C9: a successful identity extraction produces exactly
`userid:<subject>`, then `email:<email>` if and only if the email claim is
non-empty, then `group:<g>` for every group in claim order. -/
theorem extractPrincipals_order (claims : Claims) (origin : String) (ps : List String)
    (h : verifyIdentity claims origin = AuthOutcome.ok ps) :
    ps = ["userid:" ++ claims.subject]
      ++ (if claims.email = "" then [] else ["email:" ++ claims.email])
      ++ claims.groups.map (fun g => "group:" ++ g) := by
  by_cases h1 : origin = ""
  · simp [verifyIdentity, h1] at h
  · by_cases h2 : origin ∈ claims.audience
    · have hps : ps = extractPrincipals claims := by
        simp [verifyIdentity, h1, h2] at h
        exact h.symm
      rw [hps, extractPrincipals_eq]
    · simp [verifyIdentity, h1, h2] at h

/-- Witness for C9: the spec section 8 scenario — subject `42`, audience
`https://svc1/`, no email, no groups — yields exactly `userid:42`. -/
theorem extractPrincipals_order_witness :
    extractPrincipals ⟨"42", ["https://svc1/"], "", []⟩
      = ["userid:" ++ "42"]
        ++ (if ("" : String) = "" then [] else ["email:" ++ ""])
        ++ List.map (fun g => "group:" ++ g) ([] : List String) :=
  extractPrincipals_order ⟨"42", ["https://svc1/"], "", []⟩ "https://svc1/"
    (extractPrincipals ⟨"42", ["https://svc1/"], "", []⟩) (by rfl)

/-- Claim C10: for a configured audience, a request with an empty principal
list is denied without any policy being evaluated: the loop body never
runs, the audit record carries no subject and no policies, whatever the
resource, action, context or configured policies. -/
theorem empty_principals_denied (doorman : LadonDoorman) (audience : String)
    (request : Request) (c : Configuration)
    (hc : lookupMap doorman.configs audience = some c)
    (hp : request.principals = []) :
    isAllowed doorman audience request
      = (false, [⟨false, "", request.resource, request.action, []⟩]) := by
  simp [isAllowed, hc, hp, principalLoop]

/-- Witness for C10: the configured `svc1` audience denies a request with no
principals. -/
theorem empty_principals_denied_witness :
    isAllowed sampleDoorman "svc1" ⟨[], "doc:1", "read", []⟩
      = (false, [⟨false, "", "doc:1", "read", []⟩]) :=
  empty_principals_denied sampleDoorman "svc1" ⟨[], "doc:1", "read", []⟩
    sampleConfig rfl rfl

end Doorman
